import Mathlib

/-!
# tGraphSaver: the download core of `main.go`

A shallow embedding of `HttpGet`, `downloadFile` and `downloadTelegraphImages`.

* Strings are Lean strings, file contents and response bodies are lists of bytes.
* Everything the code obtains from outside the process (the network, the file system's
  willingness to create or write a file, the HTML parser, the proxy libraries) is an
  explicit parameter, collected in `World`.  The answers to one task's calls are indexed by
  the task number and the attempt number, so that a fetch may fail twice and then succeed.
* `downloadFile` is given twice: as a function that runs one call from beginning to end
  (`downloadFile`), and as the per-goroutine transition function `taskStep` of the
  interleaving semantics `step` of one run of `downloadTelegraphImages`.
-/

namespace TGraphSaver

/-! ## Data -/

/-- File contents and response bodies. -/
abbrev Bytes := List Nat

/-- The part of the file system the code touches: the content of each regular file. -/
abbrev FS := String → Option Bytes

/-- Result of `os.Create(p)` followed by writing `b`: the file at `p` holds exactly `b`. -/
def FS.write (fs : FS) (p : String) (b : Bytes) : FS :=
  fun q => if q = p then some b else fs q

/-- The fields of `config` read by the download core (`cfg` in the source). -/
structure config where
  ProxyString : String
  DataDir : String
  MaxThreads : Nat

/-- An `*http.Response`, as far as the code looks at it. -/
structure Response where
  StatusCode : Nat
  Body : Bytes
deriving DecidableEq, Repr

/-- The three `http.Client` values `HttpGet` can build. -/
inductive Client
  | socks5 (address : String)
  | forward (proxyURL : String)
  | direct
deriving DecidableEq, Repr

/-- Parsed document: the text of the first `header h1` and, for every `img` element in
document order, its `src` attribute if it has one. -/
structure Doc where
  title : String
  imgs : List (Option String)
deriving DecidableEq, Repr

/-- Go `error` values produced on the paths modelled here. -/
inductive Err
  | request
  | transport
  | create
  | write
  | status (code : Nat)
  | parse
  | noTitle
  | mkdir
deriving DecidableEq, Repr

/-- Observable events of a sequential run. -/
inductive Event
  | httpGet (url : String)
  | newRequest (url : String)
  | send (url : String)
  | exit
  | sleep (d : Nat)
deriving DecidableEq, Repr

/-- Everything outside the process.  `none` or `false` stands for a returned Go error. -/
structure World where
  /-- `proxy.SOCKS5("tcp", address, nil, proxy.Direct)` succeeds.  The function of
  `golang.org/x/net/proxy` only stores the address and returns a nil error for every
  address; an address that cannot be dialled makes `proxyClient.Do` fail later. -/
  socks5 : String → Bool
  /-- `url.Parse(proxyString)` succeeds. -/
  urlParse : String → Bool
  /-- `http.NewRequest("GET", targetURL, nil)` succeeds. -/
  newRequest : String → Bool
  /-- `proxyClient.Do(req)` for the page request. -/
  pageDo : Client → String → Option Response
  /-- `proxyClient.Do(req)` for attempt `a` of task `i`. -/
  taskDo : Nat → Nat → Client → String → Option Response
  /-- `os.Create(filepath)` succeeds in attempt `a` of task `i`. -/
  createOk : Nat → Nat → Bool
  /-- `file.ReadFrom(data.Body)` in attempt `a` of task `i`: `none` when the whole body is
  copied, `some n` when it returns an error after writing `n` bytes. -/
  copyStop : Nat → Nat → Option Nat
  /-- `goquery.NewDocumentFromReader(res.Body)`. -/
  parseDoc : Bytes → Option Doc
  /-- `path.Join(cfg.DataDir, strings.TrimSpace(title))`. -/
  joinDir : String → String → String
  /-- `os.MkdirAll(dirName, os.ModePerm)` succeeds. -/
  mkdirOk : String → Bool

/-! ## Strings -/

/-- `strings.Split(s, ":")[0]`: the text before the first `':'`, all of `s` if there is none. -/
def splitHead (s : String) : String :=
  ⟨s.data.takeWhile (fun c => c != ':')⟩

/-- `strings.HasPrefix(s, p)`. -/
def HasPrefix (s p : String) : Bool :=
  p.data.isPrefixOf s.data

/-- `strings.TrimPrefix(s, p)`. -/
def TrimPrefix (s p : String) : String :=
  if HasPrefix s p then ⟨s.data.drop p.data.length⟩ else s

/-! ## `HttpGet` -/

/-- The case of the `switch` in `HttpGet` that a proxy string selects. -/
inductive Branch
  | socks5
  | forward
  | direct
deriving DecidableEq, Repr

/-- `switch strings.Split(proxyString, ":")[0]`. -/
def proxyBranch (proxyString : String) : Branch :=
  if splitHead proxyString = "socks5" then Branch.socks5
  else if splitHead proxyString = "http" ∨ splitHead proxyString = "https" then Branch.forward
  else Branch.direct

/-- The client built by the `switch` of `HttpGet`; `none` when `log.Fatalf` is reached. -/
def proxyClient (w : World) (proxyString : String) : Option Client :=
  match proxyBranch proxyString with
  | Branch.socks5 =>
    if w.socks5 (TrimPrefix proxyString "socks5://") then
      some (Client.socks5 (TrimPrefix proxyString "socks5://"))
    else none
  | Branch.forward =>
    if w.urlParse proxyString then some (Client.forward proxyString) else none
  | Branch.direct => some Client.direct

/-- How a call of `HttpGet` ends. -/
inductive HttpOutcome
  | fatal
  | err (e : Err)
  | resp (r : Response)
deriving DecidableEq, Repr

/-- `HttpGet(targetURL, proxyString)`; `doReq` is what `proxyClient.Do` answers to this call.
The first component lists the requests created and sent, or the process exit. -/
def HttpGet (w : World) (doReq : Client → String → Option Response)
    (targetURL proxyString : String) : List Event × HttpOutcome :=
  match proxyClient w proxyString with
  | none => ([Event.exit], HttpOutcome.fatal)
  | some c =>
    if w.newRequest targetURL then
      match doReq c targetURL with
      | some r => ([Event.newRequest targetURL, Event.send targetURL], HttpOutcome.resp r)
      | none => ([Event.newRequest targetURL, Event.send targetURL], HttpOutcome.err Err.transport)
    else ([], HttpOutcome.err Err.request)

/-! ## `downloadFile`, one call from beginning to end -/

/-- `const maxRetries = 3`. -/
def maxRetries : Nat := 3

/-- `time.Second`, in nanoseconds. -/
def second : Nat := 1000000000

/-- `const retryDelay = 2 * time.Second`. -/
def retryDelay : Nat := 2 * second

/-- Result of the function literal called once per attempt. -/
inductive AttemptResult
  | ok
  | error (e : Err)
  | fatal
deriving DecidableEq, Repr

/-- The function literal `func() error` of `downloadFile`, for attempt `a` of task `i`. -/
def attemptOnce (w : World) (cfg : config) (i a : Nat) (filepath fileURL : String) (fs : FS) :
    FS × List Event × AttemptResult :=
  match HttpGet w (w.taskDo i a) fileURL cfg.ProxyString with
  | (ev, HttpOutcome.fatal) => (fs, Event.httpGet fileURL :: ev, AttemptResult.fatal)
  | (ev, HttpOutcome.err e) => (fs, Event.httpGet fileURL :: ev, AttemptResult.error e)
  | (ev, HttpOutcome.resp data) =>
    if w.createOk i a then
      match w.copyStop i a with
      | none => (fs.write filepath data.Body, Event.httpGet fileURL :: ev, AttemptResult.ok)
      | some n =>
        (fs.write filepath (data.Body.take n), Event.httpGet fileURL :: ev,
          AttemptResult.error Err.write)
    else (fs, Event.httpGet fileURL :: ev, AttemptResult.error Err.create)

/-- The wait group and the channel `sem`. -/
structure Sync where
  /-- Tokens in `sem`. -/
  sem : Nat
  /-- Capacity of `sem`. -/
  cap : Nat
  /-- Counter of `wg`. -/
  wg : Nat
deriving DecidableEq, Repr

/-- How a call of `downloadFile`, run on its own, ends. -/
inductive Exit
  | returned (err : Option Err)
  | fatal
  | blocked
  | panicked
deriving DecidableEq, Repr

/-- State at the end of a call of `downloadFile`. -/
structure Run where
  fs : FS
  sync : Sync
  trace : List Event
  exit : Exit

/-- The loop `for attempt := 1; attempt <= maxRetries; attempt++`, entered at the test of its
condition with the given value of `attempt`; `err` is the variable `err`.  The result is the
file system, the events and `none` for `log.Fatalf`, else the final `err`. -/
def retryLoop (w : World) (cfg : config) (i : Nat) (filepath fileURL : String) :
    Nat → Nat → Option Err → FS → List Event → Option (FS × List Event × Option (Option Err))
  | 0, _, _, _, _ => none
  | fuel + 1, attempt, err, fs, tr =>
    if attempt ≤ maxRetries then
      match attemptOnce w cfg i attempt filepath fileURL fs with
      | (fs1, ev, AttemptResult.fatal) => some (fs1, tr ++ ev, none)
      | (fs1, ev, AttemptResult.ok) => some (fs1, tr ++ ev, some none)
      | (fs1, ev, AttemptResult.error e) =>
        if attempt < maxRetries then
          retryLoop w cfg i filepath fileURL fuel (attempt + 1) (some e) fs1
            (tr ++ ev ++ [Event.sleep retryDelay])
        else
          retryLoop w cfg i filepath fileURL fuel (attempt + 1) (some e) fs1 (tr ++ ev)
    else some (fs, tr, some err)

/-- `downloadFile(filepath, fileURL, wg, sem)` for task `i`, run without interference:
`<-sem`, the retry loop, then the deferred `wg.Done(); sem <- struct{}{}`. -/
def downloadFile (w : World) (cfg : config) (i : Nat) (filepath fileURL : String)
    (fs : FS) (sy : Sync) : Option Run :=
  if sy.sem = 0 then some ⟨fs, sy, [], Exit.blocked⟩
  else
    match retryLoop w cfg i filepath fileURL (maxRetries + 1) 1 none fs [] with
    | none => none
    | some (fs1, tr, none) => some ⟨fs1, { sy with sem := sy.sem - 1 }, tr, Exit.fatal⟩
    | some (fs1, tr, some err) =>
      if sy.wg = 0 then some ⟨fs1, { sy with sem := sy.sem - 1 }, tr, Exit.panicked⟩
      else if sy.sem - 1 < sy.cap then
        some ⟨fs1, { sy with wg := sy.wg - 1 }, tr, Exit.returned err⟩
      else some ⟨fs1, { sy with sem := sy.sem - 1, wg := sy.wg - 1 }, tr, Exit.blocked⟩

/-- Number of calls of `HttpGet` in a trace. -/
def attempts (tr : List Event) : Nat :=
  tr.countP (fun e => match e with
    | Event.httpGet _ => true
    | _ => false)

/-- The calls of `HttpGet` and the sleeps of a trace, in order. -/
def schedule (tr : List Event) : List Event :=
  tr.filter (fun e => match e with
    | Event.httpGet _ => true
    | Event.sleep _ => true
    | _ => false)

/-- Number of requests created or sent in a trace. -/
def networkCalls (tr : List Event) : Nat :=
  tr.countP (fun e => match e with
    | Event.newRequest _ => true
    | Event.send _ => true
    | _ => false)

/-! ## `downloadTelegraphImages`: up to the dispatch -/

/-- A call `go downloadFile(filepath, fileURL, wg, sem)`. -/
structure Task where
  filepath : String
  fileURL : String
deriving DecidableEq, Repr

/-- The URL passed on for an `img` whose `src` is `imgURL`. -/
def completeURL (imgURL : String) : String :=
  if !HasPrefix imgURL "http" then "https://telegra.ph" ++ imgURL else imgURL

/-- `fmt.Sprintf("%s/%d.jpg", dirName, i)`. -/
def imagePath (dirName : String) (i : Nat) : String :=
  dirName ++ "/" ++ toString i ++ ".jpg"

/-- The callback of `doc.Find("img").Each`, applied to the elements from index `i` on: the
calls of `downloadFile` it starts, in order. -/
def eachImg (dirName : String) : Nat → List (Option String) → List Task
  | _, [] => []
  | i, none :: rest => eachImg dirName (i + 1) rest
  | i, some imgURL :: rest =>
    ⟨imagePath dirName i, completeURL imgURL⟩ :: eachImg dirName (i + 1) rest

/-- Where `downloadTelegraphImages` stands when it reaches the `Each` loop, if it does. -/
inductive Start
  | fatal (trace : List Event)
  | failed (e : Err) (trace : List Event)
  | ready (title dirName : String) (tasks : List Task) (trace : List Event)
deriving DecidableEq, Repr

/-- `downloadTelegraphImages(url)` from its first line to the creation of `sem`. -/
def downloadTelegraphImagesStart (w : World) (cfg : config) (url : String) : Start :=
  match HttpGet w w.pageDo url cfg.ProxyString with
  | (ev, HttpOutcome.fatal) => Start.fatal ev
  | (ev, HttpOutcome.err e) => Start.failed e ev
  | (ev, HttpOutcome.resp res) =>
    if res.StatusCode ≠ 200 then Start.failed (Err.status res.StatusCode) ev
    else
      match w.parseDoc res.Body with
      | none => Start.failed Err.parse ev
      | some doc =>
        if doc.title = "" then Start.failed Err.noTitle ev
        else if w.mkdirOk (w.joinDir cfg.DataDir doc.title) then
          Start.ready doc.title (w.joinDir cfg.DataDir doc.title)
            (eachImg (w.joinDir cfg.DataDir doc.title) 0 doc.imgs) ev
        else Start.failed Err.mkdir ev

/-- The calls of `downloadFile` started by a run. -/
def Start.dispatched : Start → List Task
  | Start.ready _ _ tasks _ => tasks
  | _ => []

/-! ## `downloadTelegraphImages`: the dispatch, as an interleaving of goroutines -/

/-- Where a goroutine running `downloadFile` stands. -/
inductive Phase
  /-- Started, before `<-sem`. -/
  | waiting
  /-- In the loop, before the call of `HttpGet` of this attempt. -/
  | fetching (attempt : Nat)
  /-- `HttpGet` returned `data`, before `os.Create`. -/
  | creating (attempt : Nat) (data : Response)
  /-- The file is created, before `file.ReadFrom`. -/
  | copying (attempt : Nat) (data : Response)
  /-- The attempt returned an error, before `if attempt < maxRetries`. -/
  | failed (attempt : Nat)
  /-- The loop is left, before the deferred `wg.Done()`. -/
  | finishing
  /-- After `wg.Done()`, before the deferred `sem <- struct{}{}`. -/
  | releasing
  /-- Returned. -/
  | exited
deriving DecidableEq, Repr

/-- State of one run of `downloadTelegraphImages` after `sem` is filled. -/
structure State where
  fs : FS
  /-- Tokens in `sem`. -/
  sem : Nat
  /-- Capacity of `sem`. -/
  cap : Nat
  /-- Counter of `wg`. -/
  wg : Nat
  /-- The goroutines started so far, in the order of their start. -/
  phases : List Phase
  /-- The values returned by `downloadTelegraphImages`, once it has returned. -/
  ret : Option (String × Option Err)
  /-- The process was terminated by `log.Fatalf`. -/
  fatal : Bool

/-- A step of a run: of the dispatcher, or of the goroutine of task `i`. -/
inductive Action
  | spawn
  | task (i : Nat)
  | join
deriving DecidableEq, Repr

/-- State after `sem := make(chan struct{}, cfg.MaxThreads)` and the loop that fills it. -/
def initState (cfg : config) (fs : FS) : State :=
  ⟨fs, cfg.MaxThreads, cfg.MaxThreads, 0, [], none, false⟩

/-- Top of the loop: `attempt <= maxRetries`. -/
def loopHead (attempt : Nat) : Phase :=
  if attempt ≤ maxRetries then Phase.fetching attempt else Phase.finishing

/-- One step of the goroutine of task `i`, which is in phase `ph`; `none` when it cannot move
(blocked on the channel, or returned). -/
def taskStep (w : World) (cfg : config) (i : Nat) (t : Task) (ph : Phase) (s : State) :
    Option State :=
  match ph with
  | Phase.waiting =>
    if 0 < s.sem then
      some { s with sem := s.sem - 1, phases := s.phases.set i (loopHead 1) }
    else none
  | Phase.fetching a =>
    match (HttpGet w (w.taskDo i a) t.fileURL cfg.ProxyString).2 with
    | HttpOutcome.fatal => some { s with fatal := true }
    | HttpOutcome.err _ => some { s with phases := s.phases.set i (Phase.failed a) }
    | HttpOutcome.resp data => some { s with phases := s.phases.set i (Phase.creating a data) }
  | Phase.creating a data =>
    if w.createOk i a then
      some { s with fs := s.fs.write t.filepath [],
                    phases := s.phases.set i (Phase.copying a data) }
    else some { s with phases := s.phases.set i (Phase.failed a) }
  | Phase.copying a data =>
    match w.copyStop i a with
    | none =>
      some { s with fs := s.fs.write t.filepath data.Body,
                    phases := s.phases.set i Phase.finishing }
    | some n =>
      some { s with fs := s.fs.write t.filepath (data.Body.take n),
                    phases := s.phases.set i (Phase.failed a) }
  | Phase.failed a => some { s with phases := s.phases.set i (loopHead (a + 1)) }
  | Phase.finishing =>
    if 0 < s.wg then
      some { s with wg := s.wg - 1, phases := s.phases.set i Phase.releasing }
    else none
  | Phase.releasing =>
    if s.sem < s.cap then
      some { s with sem := s.sem + 1, phases := s.phases.set i Phase.exited }
    else none
  | Phase.exited => none

/-- One step of a run of `downloadTelegraphImages` whose page is titled `title` and whose
`Each` loop starts `tasks`. -/
def step (w : World) (cfg : config) (title : String) (tasks : List Task) (s : State) :
    Action → Option State
  | Action.spawn =>
    if s.fatal = false ∧ s.phases.length < tasks.length then
      some { s with wg := s.wg + 1, phases := s.phases ++ [Phase.waiting] }
    else none
  | Action.task i =>
    if s.fatal = false then
      match s.phases[i]?, tasks[i]? with
      | some ph, some t => taskStep w cfg i t ph s
      | _, _ => none
    else none
  | Action.join =>
    if s.fatal = false ∧ s.phases.length = tasks.length ∧ s.wg = 0 ∧ s.ret = none then
      some { s with ret := some (title, none) }
    else none

/-- The state after a sequence of steps, if each of them is possible. -/
def exec (w : World) (cfg : config) (title : String) (tasks : List Task) :
    State → List Action → Option State
  | s, [] => some s
  | s, a :: rest =>
    match step w cfg title tasks s a with
    | some s1 => exec w cfg title tasks s1 rest
    | none => none

/-- The goroutine has taken a token from `sem` and not put one back. -/
def Phase.holding : Phase → Bool
  | Phase.waiting => false
  | Phase.exited => false
  | _ => true

/-- The goroutine is inside the retry loop. -/
def Phase.inLoop : Phase → Bool
  | Phase.fetching _ => true
  | Phase.creating _ _ => true
  | Phase.copying _ _ => true
  | Phase.failed _ => true
  | _ => false

/-- The goroutine has executed `wg.Done()`. -/
def Phase.done : Phase → Bool
  | Phase.releasing => true
  | Phase.exited => true
  | _ => false

/-- Number of goroutines holding a token. -/
def holders (s : State) : Nat :=
  s.phases.countP Phase.holding

/-- Number of goroutines inside the retry loop. -/
def inFlight (s : State) : Nat :=
  s.phases.countP Phase.inLoop

/-- Nothing is left to do: the dispatcher has returned and every goroutine too. -/
def State.final (s : State) : Prop :=
  s.ret ≠ none ∧ ∀ ph ∈ s.phases, ph = Phase.exited

/-! ## What an attempt of a task amounts to -/

/-- Answer of `HttpGet` in attempt `a` of task `i`. -/
def fetched (w : World) (cfg : config) (i a : Nat) (t : Task) : HttpOutcome :=
  (HttpGet w (w.taskDo i a) t.fileURL cfg.ProxyString).2

/-- Attempt `a` of task `i` returns a non-nil error: `HttpGet` returns an error, or
`os.Create` fails, or the copy fails. -/
def attemptFails (w : World) (cfg : config) (i a : Nat) (t : Task) : Bool :=
  match fetched w cfg i a t with
  | HttpOutcome.fatal => false
  | HttpOutcome.err _ => true
  | HttpOutcome.resp _ => !w.createOk i a || (w.copyStop i a).isSome

/-- Attempt `a` of task `i` returns nil after copying the body of `data`. -/
def attemptSucceeds (w : World) (cfg : config) (i a : Nat) (t : Task) (data : Response) : Prop :=
  fetched w cfg i a t = HttpOutcome.resp data ∧ w.createOk i a = true ∧ w.copyStop i a = none

/-! ## Decimal numerals -/

/-- Value of a decimal digit character. -/
def digitVal (c : Char) : Nat := c.toNat - 48

/-- Value of a string of decimal digits, most significant digit first. -/
def decimalValue (cs : List Char) : Nat :=
  cs.foldl (fun acc c => acc * 10 + digitVal c) 0

/-! ## Concrete worlds -/

/-- A world in which every call succeeds: the page is titled `T`, has three `img` elements,
the second without `src`, and every image request is answered by `200` with body `7 8 9`. -/
def calmWorld : World where
  socks5 := fun _ => true
  urlParse := fun _ => true
  newRequest := fun _ => true
  pageDo := fun _ _ => some ⟨200, [1]⟩
  taskDo := fun _ _ _ _ => some ⟨200, [7, 8, 9]⟩
  createOk := fun _ _ => true
  copyStop := fun _ _ => none
  parseDoc := fun _ => some ⟨"T", [some "/file/a.jpg", none, some "/file/b.jpg"]⟩
  joinDir := fun d t => d ++ "/" ++ t
  mkdirOk := fun _ => true

/-- Every image request is answered by `404 Not Found` (with the body `4 0 4`). -/
def notFoundWorld : World :=
  { calmWorld with taskDo := fun _ _ _ _ => some ⟨404, [4, 0, 4]⟩ }

/-- No image request is ever answered. -/
def deadWorld : World :=
  { calmWorld with taskDo := fun _ _ _ _ => none }

/-- The first attempt of a task fails in `HttpGet`, the second while copying (after two
bytes), the third succeeds. -/
def flakyWorld : World :=
  { calmWorld with
    taskDo := fun _ a _ _ => if a = 1 then none else some ⟨200, [7, 8, 9]⟩
    copyStop := fun _ a => if a = 2 then some 2 else none }

/-- Task `0` never gets an answer, the other tasks are answered at once. -/
def mixedWorld : World :=
  { calmWorld with
    taskDo := fun i _ _ _ => if i = 0 then none else some ⟨200, [7, 8, 9]⟩ }

/-- The SOCKS5 dialer cannot be built. -/
def badProxyWorld : World :=
  { calmWorld with socks5 := fun _ => false }

/-- The first two requests of a task are answered `404 Not Found` (with the body `4 0 4`),
the later ones `200` with the body `7 8 9`. -/
def lateSuccessWorld : World :=
  { calmWorld with
    taskDo := fun _ a _ _ => if a < 3 then some ⟨404, [4, 0, 4]⟩ else some ⟨200, [7, 8, 9]⟩ }

/-- The SOCKS5 dialer is built for every address, as the library does, and no request gets
through: the proxy address cannot be dialled. -/
def unreachableProxyWorld : World :=
  { calmWorld with
    pageDo := fun _ _ => none
    taskDo := fun _ _ _ _ => none }

/-- Direct connection, one download at a time. -/
def oneThread : config := ⟨"none", "pics", 1⟩

/-- A SOCKS5 proxy string whose address has no port. -/
def socksConfig : config := ⟨"socks5://nowhere", "pics", 10⟩

/-- The empty file system. -/
def emptyFS : FS := fun _ => none

/-- A file system in which `pics/T/0.jpg` holds two bytes of an earlier download. -/
def staleFS : FS := emptyFS.write "pics/T/0.jpg" [5, 5]

/-- One token in a channel of capacity one, one goroutine announced to the wait group. -/
def oneToken : Sync := ⟨1, 1, 1⟩

/-- A failing and a succeeding task. -/
def twoTasks : List Task :=
  [⟨"pics/T/0.jpg", "https://telegra.ph/file/a.jpg"⟩,
   ⟨"pics/T/2.jpg", "https://telegra.ph/file/b.jpg"⟩]

/-- A single task. -/
def oneTask : List Task :=
  [⟨"pics/T/0.jpg", "https://telegra.ph/file/a.jpg"⟩]

/-! ## Measures and invariants of the dispatch -/

/-- An upper bound on the number of steps the goroutine can still take. -/
def Phase.weight : Phase → Nat
  | Phase.waiting => 19
  | Phase.fetching a => 4 * (4 - a) + 6
  | Phase.creating a _ => 4 * (4 - a) + 5
  | Phase.copying a _ => 4 * (4 - a) + 4
  | Phase.failed a => 4 * (4 - a) + 3
  | Phase.finishing => 2
  | Phase.releasing => 1
  | Phase.exited => 0

/-- An upper bound on the number of steps a run can still take. -/
def stepsLeft (tasks : List Task) (s : State) : Nat :=
  20 * (tasks.length - s.phases.length) + (s.phases.map Phase.weight).sum
    + (if s.ret = none then 1 else 0) + (if s.fatal = false then 1 else 0)

/-- The channel and the wait group agree with the phases of the goroutines. -/
structure Balanced (cfg : config) (title : String) (tasks : List Task) (s : State) : Prop where
  cap_eq : s.cap = cfg.MaxThreads
  tokens : s.sem + holders s = cfg.MaxThreads
  counter : s.wg = s.phases.countP (fun ph => !ph.done)
  started : s.phases.length ≤ tasks.length
  joined : s.ret ≠ none → s.ret = some (title, none) ∧ s.phases.length = tasks.length ∧ s.wg = 0

/-- The download of task `i` is over: either one of its three attempts was the first to
succeed and the file holds the body that attempt received, or all three failed. -/
def Settled (w : World) (cfg : config) (i : Nat) (t : Task) (fs : FS) : Prop :=
  (∃ j data, 1 ≤ j ∧ j ≤ 3 ∧ (∀ b, 1 ≤ b → b < j → attemptFails w cfg i b t = true) ∧
      attemptSucceeds w cfg i j t data ∧ fs t.filepath = some data.Body) ∨
  (∀ b, 1 ≤ b → b ≤ 3 → attemptFails w cfg i b t = true)

/-- What the phase of the goroutine of task `i` says about its attempts and its file. -/
def TaskInv (w : World) (cfg : config) (i : Nat) (t : Task) (fs : FS) : Phase → Prop
  | Phase.waiting => True
  | Phase.fetching a =>
    1 ≤ a ∧ a ≤ 3 ∧ ∀ b, 1 ≤ b → b < a → attemptFails w cfg i b t = true
  | Phase.creating a data =>
    1 ≤ a ∧ a ≤ 3 ∧ (∀ b, 1 ≤ b → b < a → attemptFails w cfg i b t = true) ∧
      fetched w cfg i a t = HttpOutcome.resp data
  | Phase.copying a data =>
    1 ≤ a ∧ a ≤ 3 ∧ (∀ b, 1 ≤ b → b < a → attemptFails w cfg i b t = true) ∧
      fetched w cfg i a t = HttpOutcome.resp data ∧ w.createOk i a = true
  | Phase.failed a =>
    1 ≤ a ∧ a ≤ 3 ∧ ∀ b, 1 ≤ b → b ≤ a → attemptFails w cfg i b t = true
  | Phase.finishing => Settled w cfg i t fs
  | Phase.releasing => Settled w cfg i t fs
  | Phase.exited => Settled w cfg i t fs

/-- No goroutine has exited the process, and every goroutine's phase agrees with its attempts
and its file. -/
def Files (w : World) (cfg : config) (tasks : List Task) (s : State) : Prop :=
  s.fatal = false ∧
  ∀ (i : Nat) (ph : Phase) (t : Task), s.phases[i]? = some ph → tasks[i]? = some t →
    TaskInv w cfg i t s.fs ph

/-! ## Decimal numerals are injective -/

theorem digitVal_digitChar (d : Nat) (h : d < 10) : digitVal (Nat.digitChar d) = d := by
  interval_cases d <;> rfl

theorem foldl_toDigitsCore (fuel : Nat) : ∀ (n : Nat) (ds : List Char), n < fuel →
    (Nat.toDigitsCore 10 fuel n ds).foldl (fun acc c => acc * 10 + digitVal c) 0
      = ds.foldl (fun acc c => acc * 10 + digitVal c) n := by
  induction fuel with
  | zero => intro n ds h; omega
  | succ fuel ih =>
    intro n ds h
    unfold Nat.toDigitsCore
    by_cases h0 : n / 10 = 0
    · simp only [h0, if_true, List.foldl_cons, Nat.zero_mul, Nat.zero_add]
      have hn : n < 10 := by omega
      rw [Nat.mod_eq_of_lt hn, digitVal_digitChar n hn]
    · simp only [h0, if_false]
      rw [ih (n / 10) _ (by omega)]
      simp only [List.foldl_cons]
      rw [digitVal_digitChar (n % 10) (Nat.mod_lt _ (by decide))]
      congr 1
      omega

theorem decimalValue_toString (n : Nat) : decimalValue (toString n).data = n := by
  show decimalValue (Nat.repr n).data = n
  unfold Nat.repr Nat.toDigits decimalValue
  simp only [List.asString]
  rw [foldl_toDigitsCore (n + 1) n [] (by omega)]
  rfl

theorem toString_nat_injective {i j : Nat} (h : toString i = toString j) : i = j := by
  have := congrArg (fun s => decimalValue s.data) h
  simpa [decimalValue_toString] using this

theorem imagePath_injective (dirName : String) {i j : Nat}
    (h : imagePath dirName i = imagePath dirName j) : i = j := by
  unfold imagePath at h
  have h1 := congrArg String.data h
  simp only [String.data_append, List.append_assoc] at h1
  have h2 := List.append_cancel_left h1
  have h3 := List.append_cancel_left h2
  have h4 := List.append_cancel_right h3
  exact toString_nat_injective (String.ext h4)

/-! ## The tasks started by the `Each` loop -/

theorem eachImg_index (dirName : String) (imgs : List (Option String)) :
    ∀ (i : Nat) (t : Task), t ∈ eachImg dirName i imgs →
      ∃ j, i ≤ j ∧ t.filepath = imagePath dirName j := by
  induction imgs with
  | nil => intro i t h; simp [eachImg] at h
  | cons x rest ih =>
    intro i t h
    cases x with
    | none =>
      simp only [eachImg] at h
      obtain ⟨j, hj, hp⟩ := ih (i + 1) t h
      exact ⟨j, by omega, hp⟩
    | some src =>
      simp only [eachImg, List.mem_cons] at h
      rcases h with h | h
      · exact ⟨i, le_refl i, by rw [h]⟩
      · obtain ⟨j, hj, hp⟩ := ih (i + 1) t h
        exact ⟨j, by omega, hp⟩

/-- C8: for every directory name and every sequence of `img` elements, with or without a
`src` attribute, and from whatever index the numbering starts, the destination paths
`dirName/i.jpg` of the tasks started by the `Each` loop of `downloadTelegraphImages` are
pairwise distinct. -/
theorem eachImg_paths_nodup (dirName : String) (imgs : List (Option String)) :
    ∀ i : Nat, ((eachImg dirName i imgs).map Task.filepath).Nodup := by
  induction imgs with
  | nil => intro i; simp [eachImg]
  | cons x rest ih =>
    intro i
    cases x with
    | none => simpa only [eachImg] using ih (i + 1)
    | some src =>
      simp only [eachImg, List.map_cons, List.nodup_cons]
      refine ⟨?_, ih (i + 1)⟩
      intro hmem
      obtain ⟨t, ht, hp⟩ := List.mem_map.mp hmem
      obtain ⟨j, hj, hq⟩ := eachImg_index dirName rest (i + 1) t ht
      rw [hq] at hp
      have := imagePath_injective dirName hp
      omega

/-- C9, at the failing input: the relative path `http_files/1.jpg` begins with `http`, so the
`Each` loop passes it on unchanged, and the source URL of the task begins neither with
`http://` nor with `https://`. -/
theorem completeURL_relative_http_unchanged :
    eachImg "pics/T" 0 [some "http_files/1.jpg"] = [⟨"pics/T/0.jpg", "http_files/1.jpg"⟩] ∧
    completeURL "http_files/1.jpg" = "http_files/1.jpg" ∧
    HasPrefix (completeURL "http_files/1.jpg") "http://" = false ∧
    HasPrefix (completeURL "http_files/1.jpg") "https://" = false := by
  decide

/-! ## `HttpGet` -/

theorem proxyBranch_direct (proxyString : String) (h1 : splitHead proxyString ≠ "socks5")
    (h2 : splitHead proxyString ≠ "http") (h3 : splitHead proxyString ≠ "https") :
    proxyBranch proxyString = Branch.direct := by
  simp [proxyBranch, h1, h2, h3]

theorem HttpGet_of_client (w : World) (doReq : Client → String → Option Response)
    (targetURL proxyString : String) (c : Client) (h : proxyClient w proxyString = some c) :
    (HttpGet w doReq targetURL proxyString).2 ≠ HttpOutcome.fatal ∧
    Event.exit ∉ (HttpGet w doReq targetURL proxyString).1 := by
  unfold HttpGet
  rw [h]
  by_cases hr : w.newRequest targetURL = true
  · cases hd : doReq c targetURL <;> simp [hr, hd]
  · simp [hr]

/-- C7: when the text before the first `':'` of the proxy string is none of `socks5`, `http`
and `https`, the `switch` of `HttpGet` takes its default case and builds the plain client;
the call neither ends in `log.Fatalf` nor exits the process; it is the call made with the
plain client; and any proxy string with the same text before its first `':'` selects the
same case. -/
theorem HttpGet_unrecognised_scheme_direct (w : World) (proxyString : String)
    (h1 : splitHead proxyString ≠ "socks5") (h2 : splitHead proxyString ≠ "http")
    (h3 : splitHead proxyString ≠ "https") :
    proxyBranch proxyString = Branch.direct ∧
    proxyClient w proxyString = some Client.direct ∧
    (∀ (doReq : Client → String → Option Response) (targetURL : String),
      (HttpGet w doReq targetURL proxyString).2 ≠ HttpOutcome.fatal ∧
      Event.exit ∉ (HttpGet w doReq targetURL proxyString).1 ∧
      HttpGet w doReq targetURL proxyString =
        (if w.newRequest targetURL then
          match doReq Client.direct targetURL with
          | some r => ([Event.newRequest targetURL, Event.send targetURL], HttpOutcome.resp r)
          | none =>
            ([Event.newRequest targetURL, Event.send targetURL], HttpOutcome.err Err.transport)
        else ([], HttpOutcome.err Err.request))) ∧
    (∀ q : String, splitHead q = splitHead proxyString → proxyBranch q = proxyBranch proxyString) := by
  have hb := proxyBranch_direct proxyString h1 h2 h3
  have hc : proxyClient w proxyString = some Client.direct := by
    simp [proxyClient, hb]
  refine ⟨hb, hc, ?_, ?_⟩
  · intro doReq targetURL
    refine ⟨(HttpGet_of_client w doReq targetURL proxyString _ hc).1,
      (HttpGet_of_client w doReq targetURL proxyString _ hc).2, ?_⟩
    simp [HttpGet, hc]
  · intro q hq
    simp [proxyBranch, hq]

/-- C7, at the proxy string `socks5h://h:1` in a world where no SOCKS5 dialer can be built. -/
theorem HttpGet_unrecognised_scheme_direct_witness :
    proxyClient badProxyWorld "socks5h://h:1" = some Client.direct :=
  (HttpGet_unrecognised_scheme_direct badProxyWorld "socks5h://h:1"
    (by decide) (by decide) (by decide)).2.1

/-- C10, at the failing input: the proxy string `socks5://nowhere`, whose address has no
port.  `proxy.SOCKS5` returns no error, so the test before `log.Fatalf` does not fire:
`HttpGet` builds the SOCKS5 client, creates the request and sends it, and returns the error of
`proxyClient.Do`; `downloadTelegraphImages` returns that error from its page fetch instead of
exiting the process; and a call of `downloadFile` makes its three attempts. -/
theorem HttpGet_socks5_malformed_not_fatal :
    proxyClient unreachableProxyWorld "socks5://nowhere" = some (Client.socks5 "nowhere") ∧
    HttpGet unreachableProxyWorld unreachableProxyWorld.pageDo "https://telegra.ph/x"
        "socks5://nowhere"
      = ([Event.newRequest "https://telegra.ph/x", Event.send "https://telegra.ph/x"],
          HttpOutcome.err Err.transport) ∧
    networkCalls (HttpGet unreachableProxyWorld unreachableProxyWorld.pageDo
        "https://telegra.ph/x" "socks5://nowhere").1 = 2 ∧
    downloadTelegraphImagesStart unreachableProxyWorld socksConfig "https://telegra.ph/x"
      = Start.failed Err.transport
          [Event.newRequest "https://telegra.ph/x", Event.send "https://telegra.ph/x"] ∧
    (downloadFile unreachableProxyWorld socksConfig 0 "pics/T/0.jpg" "u" emptyFS oneToken).map
        (fun r => (attempts r.trace, networkCalls r.trace, r.exit))
      = some (3, 6, Exit.returned (some Err.transport)) := by
  decide

/-! ## `downloadFile`, run on its own -/

theorem HttpGet_quiet (w : World) (doReq : Client → String → Option Response)
    (targetURL proxyString : String) :
    schedule (HttpGet w doReq targetURL proxyString).1 = [] ∧
    attempts (HttpGet w doReq targetURL proxyString).1 = 0 := by
  unfold HttpGet
  cases proxyClient w proxyString with
  | none => exact ⟨rfl, rfl⟩
  | some c =>
    by_cases hr : w.newRequest targetURL = true
    · simp only [hr, if_true]
      cases doReq c targetURL <;> exact ⟨rfl, rfl⟩
    · simp only [hr]
      exact ⟨rfl, rfl⟩

theorem attemptOnce_fails (w : World) (cfg : config) (i a : Nat) (filepath fileURL : String)
    (fs : FS) (h : attemptFails w cfg i a ⟨filepath, fileURL⟩ = true) :
    ∃ fs1 ev e, attemptOnce w cfg i a filepath fileURL fs
        = (fs1, Event.httpGet fileURL :: ev, AttemptResult.error e) ∧
      schedule ev = [] ∧ attempts ev = 0 := by
  have hq := HttpGet_quiet w (w.taskDo i a) fileURL cfg.ProxyString
  unfold attemptFails fetched at h
  unfold attemptOnce
  rcases hg : HttpGet w (w.taskDo i a) fileURL cfg.ProxyString with ⟨ev, out⟩
  rw [hg] at h hq
  cases out with
  | fatal => exact absurd h (by simp)
  | err e => exact ⟨fs, ev, e, rfl, hq.1, hq.2⟩
  | resp data =>
    by_cases hc : w.createOk i a = true
    · cases hs : w.copyStop i a with
      | none => simp [hc, hs] at h
      | some n =>
        exact ⟨fs.write filepath (data.Body.take n), ev, Err.write, by simp [hc, hs], hq.1, hq.2⟩
    · exact ⟨fs, ev, Err.create, by simp [hc], hq.1, hq.2⟩

theorem attemptOnce_succeeds (w : World) (cfg : config) (i a : Nat) (filepath fileURL : String)
    (fs : FS) (data : Response) (h : attemptSucceeds w cfg i a ⟨filepath, fileURL⟩ data) :
    ∃ ev, attemptOnce w cfg i a filepath fileURL fs
        = (fs.write filepath data.Body, Event.httpGet fileURL :: ev, AttemptResult.ok) ∧
      schedule ev = [] ∧ attempts ev = 0 := by
  have hq := HttpGet_quiet w (w.taskDo i a) fileURL cfg.ProxyString
  obtain ⟨hf, hc, hs⟩ := h
  unfold fetched at hf
  unfold attemptOnce
  rcases hg : HttpGet w (w.taskDo i a) fileURL cfg.ProxyString with ⟨ev, out⟩
  rw [hg] at hf hq
  simp only at hf
  subst hf
  exact ⟨ev, by simp [hc, hs], hq.1, hq.2⟩

theorem retryLoop_fail (w : World) (cfg : config) (i : Nat) (filepath fileURL : String)
    (fuel attempt : Nat) (err : Option Err) (fs fs1 : FS) (tr ev : List Event) (e : Err)
    (ha : attempt ≤ maxRetries)
    (h : attemptOnce w cfg i attempt filepath fileURL fs = (fs1, ev, AttemptResult.error e)) :
    retryLoop w cfg i filepath fileURL (fuel + 1) attempt err fs tr =
      retryLoop w cfg i filepath fileURL fuel (attempt + 1) (some e) fs1
        (tr ++ ev ++ (if attempt < maxRetries then [Event.sleep retryDelay] else [])) := by
  rw [retryLoop]
  simp only [ha, if_true, h]
  by_cases hlt : attempt < maxRetries
  · simp [hlt]
  · simp [hlt]

theorem retryLoop_ok (w : World) (cfg : config) (i : Nat) (filepath fileURL : String)
    (fuel attempt : Nat) (err : Option Err) (fs fs1 : FS) (tr ev : List Event)
    (ha : attempt ≤ maxRetries)
    (h : attemptOnce w cfg i attempt filepath fileURL fs = (fs1, ev, AttemptResult.ok)) :
    retryLoop w cfg i filepath fileURL (fuel + 1) attempt err fs tr
      = some (fs1, tr ++ ev, some none) := by
  rw [retryLoop]
  simp only [ha, if_true, h]

theorem retryLoop_exit (w : World) (cfg : config) (i : Nat) (filepath fileURL : String)
    (fuel attempt : Nat) (err : Option Err) (fs : FS) (tr : List Event)
    (ha : maxRetries < attempt) :
    retryLoop w cfg i filepath fileURL (fuel + 1) attempt err fs tr = some (fs, tr, some err) := by
  rw [retryLoop]
  simp [Nat.not_le.mpr ha]

theorem schedule_append (xs ys : List Event) : schedule (xs ++ ys) = schedule xs ++ schedule ys := by
  simp [schedule]

theorem attempts_append (xs ys : List Event) : attempts (xs ++ ys) = attempts xs + attempts ys := by
  simp [attempts]

/-- C2: when each of the three attempts of a task returns an error (from `HttpGet`, from
`os.Create` or from the copy), `downloadFile`, started with a token available, calls `HttpGet`
exactly three times, sleeps `retryDelay`, which is two seconds, after the first and after the
second attempt and not after the third, and returns with the last error in `err`, having
decremented the wait group and put its token back. -/
theorem downloadFile_all_attempts_fail (w : World) (cfg : config) (i : Nat)
    (filepath fileURL : String) (fs : FS) (sy : Sync)
    (hsem : 0 < sy.sem) (hcap : sy.sem ≤ sy.cap) (hwg : 0 < sy.wg)
    (hfail : ∀ a, 1 ≤ a → a ≤ 3 → attemptFails w cfg i a ⟨filepath, fileURL⟩ = true) :
    ∃ r, downloadFile w cfg i filepath fileURL fs sy = some r ∧
      attempts r.trace = 3 ∧
      schedule r.trace = [Event.httpGet fileURL, Event.sleep (2 * 1000000000),
        Event.httpGet fileURL, Event.sleep (2 * 1000000000), Event.httpGet fileURL] ∧
      (∃ e, r.exit = Exit.returned (some e)) ∧
      r.sync = { sy with wg := sy.wg - 1 } := by
  obtain ⟨fs1, ev1, e1, h1, hs1, hc1⟩ :=
    attemptOnce_fails w cfg i 1 filepath fileURL fs (hfail 1 (by decide) (by decide))
  obtain ⟨fs2, ev2, e2, h2, hs2, hc2⟩ :=
    attemptOnce_fails w cfg i 2 filepath fileURL fs1 (hfail 2 (by decide) (by decide))
  obtain ⟨fs3, ev3, e3, h3, hs3, hc3⟩ :=
    attemptOnce_fails w cfg i 3 filepath fileURL fs2 (hfail 3 (by decide) (by decide))
  have hloop : retryLoop w cfg i filepath fileURL (maxRetries + 1) 1 none fs [] =
      some (fs3, [] ++ (Event.httpGet fileURL :: ev1) ++ [Event.sleep retryDelay]
        ++ (Event.httpGet fileURL :: ev2) ++ [Event.sleep retryDelay]
        ++ (Event.httpGet fileURL :: ev3) ++ [], some (some e3)) := by
    rw [show maxRetries + 1 = 3 + 1 from rfl,
      retryLoop_fail w cfg i filepath fileURL 3 1 none fs fs1 [] _ e1 (by decide) h1,
      retryLoop_fail w cfg i filepath fileURL 2 2 _ fs1 fs2 _ _ e2 (by decide) h2,
      retryLoop_fail w cfg i filepath fileURL 1 3 _ fs2 fs3 _ _ e3 (by decide) h3,
      retryLoop_exit w cfg i filepath fileURL 0 4 _ fs3 _ (by decide)]
    rfl
  have h0 : ¬ sy.sem = 0 := by omega
  have h1 : ¬ sy.wg = 0 := by omega
  have h2 : sy.sem - 1 < sy.cap := by omega
  unfold downloadFile
  rw [hloop]
  simp only [h0, h1, h2, if_true, if_false]
  refine ⟨_, rfl, ?_, ?_, ⟨e3, rfl⟩, rfl⟩
  · simp only [attempts_append, List.append_nil, List.nil_append]
    simp only [attempts, List.countP_cons, List.countP_nil] at *
    simp [hc1, hc2, hc3]
  · simp only [schedule_append, List.append_nil, List.nil_append]
    simp only [schedule, List.filter_cons, List.filter_nil] at *
    simp [hs1, hs2, hs3, retryDelay, second]

/-- C2, in the world where no image request is answered. -/
theorem downloadFile_all_attempts_fail_witness :
    ∃ r, downloadFile deadWorld oneThread 0 "pics/T/0.jpg" "u" emptyFS oneToken = some r ∧
      attempts r.trace = 3 ∧
      schedule r.trace = [Event.httpGet "u", Event.sleep (2 * 1000000000),
        Event.httpGet "u", Event.sleep (2 * 1000000000), Event.httpGet "u"] ∧
      (∃ e, r.exit = Exit.returned (some e)) ∧
      r.sync = { oneToken with wg := oneToken.wg - 1 } :=
  downloadFile_all_attempts_fail deadWorld oneThread 0 "pics/T/0.jpg" "u" emptyFS oneToken
    (by decide) (by decide) (by decide)
    (by intro a _ _; rfl)

theorem FS.write_same (fs : FS) (p : String) (b : Bytes) : fs.write p b p = some b := by
  simp [FS.write]

theorem FS.write_other (fs : FS) (p q : String) (b : Bytes) (h : q ≠ p) :
    fs.write p b q = fs q := by
  simp [FS.write, h]

/-- C3, at the failing input: every request of the task is answered `404` with the body
`4 0 4`.  `downloadFile` makes a single attempt, ends with `err == nil`, and the destination
file holds the body of the `404` response. -/
theorem downloadFile_keeps_non2xx_body :
    (downloadFile notFoundWorld oneThread 0 "pics/T/0.jpg" "https://telegra.ph/file/a.jpg"
        emptyFS oneToken).map (fun r => (attempts r.trace, r.exit, r.fs "pics/T/0.jpg"))
      = some (1, Exit.returned none, some [4, 0, 4]) := by
  decide

/-- C4, at the failing input: the requests of the task are answered `404`, `404`, `200`, so
that the third attempt is the first whose fetch succeeds.  `downloadFile` never reads
`data.StatusCode`: it makes a single attempt, ends with `err == nil`, and the destination file
holds the body of the first `404` response, not the body `7 8 9` of the `200` response. -/
theorem downloadFile_stops_at_first_non2xx :
    (downloadFile lateSuccessWorld oneThread 0 "pics/T/0.jpg" "https://telegra.ph/file/a.jpg"
        staleFS oneToken).map (fun r => (attempts r.trace, r.exit, r.fs "pics/T/0.jpg"))
      = some (1, Exit.returned none, some [4, 0, 4]) := by
  decide

/-- When the attempts of a task before attempt `j`, `1 ≤ j ≤ 3`, each return an error (from
`HttpGet`, from `os.Create` or from the copy) and attempt `j` returns none, `data` being the
response it received, then whatever the file system held before, `downloadFile`, started with
a token available, calls `HttpGet` exactly `j` times and returns with `err == nil`, and the
destination file holds exactly the bytes of the body of `data`. -/
theorem downloadFile_first_success (w : World) (cfg : config) (i : Nat)
    (filepath fileURL : String) (fs : FS) (sy : Sync) (j : Nat) (data : Response)
    (hsem : 0 < sy.sem) (hcap : sy.sem ≤ sy.cap) (hwg : 0 < sy.wg)
    (hj1 : 1 ≤ j) (hj3 : j ≤ 3)
    (hfail : ∀ a, 1 ≤ a → a < j → attemptFails w cfg i a ⟨filepath, fileURL⟩ = true)
    (hok : attemptSucceeds w cfg i j ⟨filepath, fileURL⟩ data) :
    ∃ r, downloadFile w cfg i filepath fileURL fs sy = some r ∧
      attempts r.trace = j ∧
      r.fs filepath = some data.Body ∧
      r.exit = Exit.returned none ∧
      r.sync = { sy with wg := sy.wg - 1 } := by
  have h0 : ¬ sy.sem = 0 := by omega
  have h1 : ¬ sy.wg = 0 := by omega
  have h2 : sy.sem - 1 < sy.cap := by omega
  unfold downloadFile
  have hj : j = 1 ∨ j = 2 ∨ j = 3 := by omega
  rcases hj with hj | hj | hj
  · subst hj
    obtain ⟨ev1, a1, -, c1⟩ := attemptOnce_succeeds w cfg i 1 filepath fileURL fs data hok
    rw [show maxRetries + 1 = 3 + 1 from rfl,
      retryLoop_ok w cfg i filepath fileURL 3 1 none fs _ [] _ (by decide) a1]
    simp only [h0, h1, h2, if_true, if_false]
    refine ⟨_, rfl, ?_, FS.write_same _ _ _, rfl, rfl⟩
    simp only [attempts_append]
    simp only [attempts, List.countP_cons, List.countP_nil] at *
    simp [c1]
  · subst hj
    obtain ⟨fs1, ev1, e1, a1, -, c1⟩ :=
      attemptOnce_fails w cfg i 1 filepath fileURL fs (hfail 1 (by decide) (by decide))
    obtain ⟨ev2, a2, -, c2⟩ := attemptOnce_succeeds w cfg i 2 filepath fileURL fs1 data hok
    rw [show maxRetries + 1 = 3 + 1 from rfl,
      retryLoop_fail w cfg i filepath fileURL 3 1 none fs fs1 [] _ e1 (by decide) a1,
      retryLoop_ok w cfg i filepath fileURL 2 2 _ fs1 _ _ _ (by decide) a2]
    simp only [h0, h1, h2, if_true, if_false]
    refine ⟨_, rfl, ?_, FS.write_same _ _ _, rfl, rfl⟩
    simp only [attempts_append]
    simp only [attempts, List.countP_cons, List.countP_nil] at *
    simp [c1, c2, maxRetries]
  · subst hj
    obtain ⟨fs1, ev1, e1, a1, -, c1⟩ :=
      attemptOnce_fails w cfg i 1 filepath fileURL fs (hfail 1 (by decide) (by decide))
    obtain ⟨fs2, ev2, e2, a2, -, c2⟩ :=
      attemptOnce_fails w cfg i 2 filepath fileURL fs1 (hfail 2 (by decide) (by decide))
    obtain ⟨ev3, a3, -, c3⟩ := attemptOnce_succeeds w cfg i 3 filepath fileURL fs2 data hok
    rw [show maxRetries + 1 = 3 + 1 from rfl,
      retryLoop_fail w cfg i filepath fileURL 3 1 none fs fs1 [] _ e1 (by decide) a1,
      retryLoop_fail w cfg i filepath fileURL 2 2 _ fs1 fs2 _ _ e2 (by decide) a2,
      retryLoop_ok w cfg i filepath fileURL 1 3 _ fs2 _ _ _ (by decide) a3]
    simp only [h0, h1, h2, if_true, if_false]
    refine ⟨_, rfl, ?_, FS.write_same _ _ _, rfl, rfl⟩
    simp only [attempts_append]
    simp only [attempts, List.countP_cons, List.countP_nil] at *
    simp [c1, c2, c3, maxRetries]

/-- The case of a fetch that fails in `HttpGet`, then fails while copying after two bytes,
then succeeds, over a destination that already holds two bytes. -/
theorem downloadFile_first_success_witness :
    ∃ r, downloadFile flakyWorld oneThread 0 "pics/T/0.jpg" "u" staleFS oneToken = some r ∧
      attempts r.trace = 3 ∧
      r.fs "pics/T/0.jpg" = some [7, 8, 9] ∧
      r.exit = Exit.returned none ∧
      r.sync = { oneToken with wg := oneToken.wg - 1 } :=
  downloadFile_first_success flakyWorld oneThread 0 "pics/T/0.jpg" "u" staleFS oneToken 3
    ⟨200, [7, 8, 9]⟩ (by decide) (by decide) (by decide) (by decide) (by decide)
    (by intro a h1 h2; interval_cases a <;> rfl)
    ⟨by decide, by decide, by decide⟩

/-! ## Counting phases -/

theorem countP_set_phase (p : Phase → Bool) : ∀ (l : List Phase) (i : Nat) (old new : Phase),
    l[i]? = some old →
    (l.set i new).countP p + (p old).toNat = l.countP p + (p new).toNat := by
  intro l
  induction l with
  | nil => intro i old new h; simp at h
  | cons x xs ih =>
    intro i old new h
    cases i with
    | zero =>
      simp only [List.getElem?_cons_zero, Option.some.injEq] at h
      subst h
      simp only [List.set_cons_zero, List.countP_cons]
      cases p x <;> cases p new <;> simp
    | succ k =>
      simp only [List.getElem?_cons_succ] at h
      have := ih k old new h
      simp only [List.set_cons_succ, List.countP_cons]
      omega

theorem weight_set_phase : ∀ (l : List Phase) (i : Nat) (old new : Phase),
    l[i]? = some old →
    ((l.set i new).map Phase.weight).sum + old.weight = (l.map Phase.weight).sum + new.weight := by
  intro l
  induction l with
  | nil => intro i old new h; simp at h
  | cons x xs ih =>
    intro i old new h
    cases i with
    | zero =>
      simp only [List.getElem?_cons_zero, Option.some.injEq] at h
      subst h
      simp only [List.set_cons_zero, List.map_cons, List.sum_cons]
      omega
    | succ k =>
      simp only [List.getElem?_cons_succ] at h
      have := ih k old new h
      simp only [List.set_cons_succ, List.map_cons, List.sum_cons]
      omega

theorem countP_pos_index (p : Phase → Bool) : ∀ (l : List Phase), 0 < l.countP p →
    ∃ (i : Nat) (ph : Phase), l[i]? = some ph ∧ p ph = true := by
  intro l
  induction l with
  | nil => intro h; simp at h
  | cons x xs ih =>
    intro h
    by_cases hx : p x = true
    · exact ⟨0, x, by simp, hx⟩
    · simp only [List.countP_cons, hx, if_false, Nat.add_zero] at h
      obtain ⟨i, ph, hi, hp⟩ := ih h
      exact ⟨i + 1, ph, by simpa using hi, hp⟩

theorem countP_pos_of_index (p : Phase → Bool) (l : List Phase) (i : Nat) (ph : Phase)
    (h : l[i]? = some ph) (hp : p ph = true) : 0 < l.countP p := by
  rw [List.countP_pos_iff]
  exact ⟨ph, List.getElem?_mem h, hp⟩

theorem inLoop_le_holding (l : List Phase) : l.countP Phase.inLoop ≤ l.countP Phase.holding := by
  induction l with
  | nil => simp
  | cons x xs ih =>
    simp only [List.countP_cons]
    cases x <;> simp [Phase.inLoop, Phase.holding] <;> omega

/-! ## One step of a goroutine -/

/-- What a step of the goroutine of task `i` does to the channel, the wait group and the
phases: either the process exits in `HttpGet`, or the goroutine moves to a phase of smaller
weight and the token and counter books stay balanced. -/
theorem taskStep_sync (w : World) (cfg : config) (i : Nat) (t : Task) (ph : Phase)
    (s s1 : State) (h : taskStep w cfg i t ph s = some s1) :
    (s1 = { s with fatal := true } ∧ ∃ a, fetched w cfg i a t = HttpOutcome.fatal) ∨
    (∃ ph1, s1.phases = s.phases.set i ph1 ∧ s1.cap = s.cap ∧ s1.ret = s.ret ∧
      s1.fatal = s.fatal ∧
      s1.sem + ph1.holding.toNat = s.sem + ph.holding.toNat ∧
      s1.wg + (!ph.done).toNat = s.wg + (!ph1.done).toNat ∧
      ph1.weight < ph.weight ∧ (ph.done = true → ph1.done = true)) := by
  cases ph with
  | waiting =>
    simp only [taskStep] at h
    split at h
    · rename_i hs
      cases h
      refine Or.inr ⟨loopHead 1, rfl, rfl, rfl, rfl, ?_, ?_, ?_, by simp [Phase.done]⟩
      · simp [loopHead, maxRetries, Phase.holding]; omega
      · simp [loopHead, maxRetries, Phase.done]
      · simp [loopHead, maxRetries, Phase.weight]
    · cases h
  | fetching a =>
    simp only [taskStep] at h
    split at h
    · rename_i hf
      cases h
      exact Or.inl ⟨rfl, a, hf⟩
    · cases h
      exact Or.inr ⟨Phase.failed a, rfl, rfl, rfl, rfl, rfl, rfl, by simp [Phase.weight], by simp [Phase.done]⟩
    · cases h
      exact Or.inr ⟨Phase.creating a _, rfl, rfl, rfl, rfl, rfl, rfl, by simp [Phase.weight], by simp [Phase.done]⟩
  | creating a data =>
    simp only [taskStep] at h
    split at h
    · cases h
      exact Or.inr ⟨Phase.copying a data, rfl, rfl, rfl, rfl, rfl, rfl, by simp [Phase.weight], by simp [Phase.done]⟩
    · cases h
      exact Or.inr ⟨Phase.failed a, rfl, rfl, rfl, rfl, rfl, rfl, by simp [Phase.weight], by simp [Phase.done]⟩
  | copying a data =>
    simp only [taskStep] at h
    split at h
    · cases h
      exact Or.inr ⟨Phase.finishing, rfl, rfl, rfl, rfl, rfl, rfl, by simp [Phase.weight], by simp [Phase.done]⟩
    · cases h
      exact Or.inr ⟨Phase.failed a, rfl, rfl, rfl, rfl, rfl, rfl, by simp [Phase.weight], by simp [Phase.done]⟩
  | failed a =>
    simp only [taskStep] at h
    cases h
    refine Or.inr ⟨loopHead (a + 1), rfl, rfl, rfl, rfl, ?_, ?_, ?_, by simp [Phase.done]⟩
    · unfold loopHead; split <;> rfl
    · unfold loopHead; split <;> rfl
    · unfold loopHead maxRetries
      split
      · simp only [Phase.weight]; omega
      · simp only [Phase.weight]; omega
  | finishing =>
    simp only [taskStep] at h
    split at h
    · rename_i hs
      cases h
      refine Or.inr ⟨Phase.releasing, rfl, rfl, rfl, rfl, rfl, ?_, by simp [Phase.weight], by simp [Phase.done]⟩
      simp [Phase.done]; omega
    · cases h
  | releasing =>
    simp only [taskStep] at h
    split at h
    · cases h
      refine Or.inr ⟨Phase.exited, rfl, rfl, rfl, rfl, ?_, rfl, by simp [Phase.weight], by simp [Phase.done]⟩
      simp [Phase.holding]
    · cases h
  | exited => simp [taskStep] at h


/-! ## One step of a run -/

theorem step_task (w : World) (cfg : config) (title : String) (tasks : List Task)
    (s s1 : State) (i : Nat) (h : step w cfg title tasks s (Action.task i) = some s1) :
    s.fatal = false ∧ ∃ ph t, s.phases[i]? = some ph ∧ tasks[i]? = some t ∧
      taskStep w cfg i t ph s = some s1 := by
  simp only [step] at h
  split at h
  · rename_i hf
    split at h
    · rename_i ph t hp ht
      exact ⟨hf, ph, t, hp, ht, h⟩
    · cases h
  · cases h

theorem step_spawn (w : World) (cfg : config) (title : String) (tasks : List Task)
    (s s1 : State) (h : step w cfg title tasks s Action.spawn = some s1) :
    s.fatal = false ∧ s.phases.length < tasks.length ∧
      s1 = { s with wg := s.wg + 1, phases := s.phases ++ [Phase.waiting] } := by
  simp only [step] at h
  split at h
  · rename_i hg
    cases h
    exact ⟨hg.1, hg.2, rfl⟩
  · cases h

theorem step_join (w : World) (cfg : config) (title : String) (tasks : List Task)
    (s s1 : State) (h : step w cfg title tasks s Action.join = some s1) :
    s.fatal = false ∧ s.phases.length = tasks.length ∧ s.wg = 0 ∧ s.ret = none ∧
      s1 = { s with ret := some (title, none) } := by
  simp only [step] at h
  split at h
  · rename_i hg
    cases h
    exact ⟨hg.1, hg.2.1, hg.2.2.1, hg.2.2.2, rfl⟩
  · cases h

theorem exec_invariant (w : World) (cfg : config) (title : String) (tasks : List Task)
    (P : State → Prop)
    (hstep : ∀ s a s1, P s → step w cfg title tasks s a = some s1 → P s1) :
    ∀ (acts : List Action) (s s1 : State), P s → exec w cfg title tasks s acts = some s1 → P s1 := by
  intro acts
  induction acts with
  | nil =>
    intro s s1 hP h
    simp only [exec, Option.some.injEq] at h
    exact h ▸ hP
  | cons a rest ih =>
    intro s s1 hP h
    simp only [exec] at h
    split at h
    · rename_i s2 hs2
      exact ih s2 s1 (hstep s a s2 hP hs2) h
    · cases h

theorem initState_balanced (cfg : config) (title : String) (tasks : List Task) (fs : FS) :
    Balanced cfg title tasks (initState cfg fs) where
  cap_eq := rfl
  tokens := by simp [initState, holders]
  counter := by simp [initState]
  started := by simp [initState]
  joined := by simp [initState]

theorem step_balanced (w : World) (cfg : config) (title : String) (tasks : List Task)
    (s : State) (a : Action) (s1 : State) (hb : Balanced cfg title tasks s)
    (h : step w cfg title tasks s a = some s1) : Balanced cfg title tasks s1 := by
  cases a with
  | spawn =>
    obtain ⟨-, hlen, rfl⟩ := step_spawn w cfg title tasks s s1 h
    have hret : s.ret = none := by
      by_contra hne
      have := (hb.joined hne).2.1
      omega
    refine ⟨hb.cap_eq, ?_, ?_, ?_, ?_⟩
    · have := hb.tokens
      simp only [holders, List.countP_append] at this ⊢
      simpa [Phase.holding] using this
    · have := hb.counter
      simp only [List.countP_append]
      simp [Phase.done, this]
    · simp only [List.length_append, List.length_singleton]; omega
    · intro hne; exact absurd hret hne
  | join =>
    obtain ⟨-, hlen, hwg, -, rfl⟩ := step_join w cfg title tasks s s1 h
    exact ⟨hb.cap_eq, hb.tokens, hb.counter, hb.started, fun _ => ⟨rfl, hlen, hwg⟩⟩
  | task i =>
    obtain ⟨-, ph, t, hp, -, hts⟩ := step_task w cfg title tasks s s1 i h
    rcases taskStep_sync w cfg i t ph s s1 hts with ⟨rfl, -⟩ | ⟨ph1, hph, hcap, hret, -, hsem, hwg, -, hdone⟩
    · exact ⟨hb.cap_eq, hb.tokens, hb.counter, hb.started, hb.joined⟩
    · have hh := countP_set_phase Phase.holding s.phases i ph ph1 hp
      have hd := countP_set_phase (fun ph => !ph.done) s.phases i ph ph1 hp
      have htok := hb.tokens
      have hcnt := hb.counter
      simp only [holders] at htok
      refine ⟨by rw [hcap]; exact hb.cap_eq, ?_, ?_, ?_, ?_⟩
      · simp only [holders, hph]
        cases hx : ph.holding <;> cases hy : ph1.holding <;>
          simp only [hx, hy, Bool.toNat_true, Bool.toNat_false] at hh hsem <;> omega
      · rw [hph]
        cases hx : ph.done <;> cases hy : ph1.done <;>
          simp only [hx, hy, Bool.not_true, Bool.not_false, Bool.toNat_true, Bool.toNat_false]
            at hd hwg <;> omega
      · rw [hph, List.length_set]; exact hb.started
      · intro hne
        rw [hret] at hne ⊢
        obtain ⟨h1, h2, h3⟩ := hb.joined hne
        refine ⟨h1, by rw [hph, List.length_set]; exact h2, ?_⟩
        have hphd : ph.done = true := by
          by_contra hnd
          have : 0 < s.phases.countP (fun ph => !ph.done) :=
            countP_pos_of_index _ s.phases i ph hp (by simpa using hnd)
          omega
        have hph1d := hdone hphd
        simp only [hphd, hph1d, Bool.not_true, Bool.toNat_false] at hwg
        omega

theorem exec_balanced (w : World) (cfg : config) (title : String) (tasks : List Task) (fs : FS)
    (acts : List Action) (s : State)
    (h : exec w cfg title tasks (initState cfg fs) acts = some s) : Balanced cfg title tasks s :=
  exec_invariant w cfg title tasks (Balanced cfg title tasks)
    (fun s a s1 hb hs => step_balanced w cfg title tasks s a s1 hb hs) acts _ s
    (initState_balanced cfg title tasks fs) h

theorem step_stepsLeft (w : World) (cfg : config) (title : String) (tasks : List Task)
    (s : State) (a : Action) (s1 : State) (h : step w cfg title tasks s a = some s1) :
    stepsLeft tasks s1 < stepsLeft tasks s := by
  cases a with
  | spawn =>
    obtain ⟨-, hlen, rfl⟩ := step_spawn w cfg title tasks s s1 h
    simp only [stepsLeft, List.length_append, List.length_singleton, List.map_append,
      List.sum_append, List.map_cons, List.map_nil, List.sum_cons, List.sum_nil, Phase.weight]
    omega
  | join =>
    obtain ⟨-, -, -, hret, rfl⟩ := step_join w cfg title tasks s s1 h
    simp [stepsLeft, hret]
  | task i =>
    obtain ⟨hf, ph, t, hp, -, hts⟩ := step_task w cfg title tasks s s1 i h
    rcases taskStep_sync w cfg i t ph s s1 hts with ⟨rfl, -⟩ | ⟨ph1, hph, -, hret, hfat, -, -, hw, -⟩
    · simp [stepsLeft, hf]
    · have := weight_set_phase s.phases i ph ph1 hp
      simp only [stepsLeft, hph, hret, hfat, List.length_set]
      omega

theorem exec_length (w : World) (cfg : config) (title : String) (tasks : List Task) :
    ∀ (acts : List Action) (s s1 : State), exec w cfg title tasks s acts = some s1 →
      stepsLeft tasks s1 + acts.length ≤ stepsLeft tasks s := by
  intro acts
  induction acts with
  | nil =>
    intro s s1 h
    simp only [exec, Option.some.injEq] at h
    subst h
    simp
  | cons a rest ih =>
    intro s s1 h
    simp only [exec] at h
    split at h
    · rename_i s2 hs2
      have h1 := ih s2 s1 h
      have h2 := step_stepsLeft w cfg title tasks s a s2 hs2
      simp only [List.length_cons]
      omega
    · cases h


/-! ## The files -/

theorem fetched_of_client (w : World) (cfg : config) (c : Client)
    (hc : proxyClient w cfg.ProxyString = some c) (i a : Nat) (t : Task) :
    fetched w cfg i a t ≠ HttpOutcome.fatal :=
  (HttpGet_of_client w (w.taskDo i a) t.fileURL cfg.ProxyString c hc).1

theorem TaskInv_congr (w : World) (cfg : config) (i : Nat) (t : Task) (fs fs1 : FS)
    (ph : Phase) (hfs : fs1 t.filepath = fs t.filepath) (h : TaskInv w cfg i t fs ph) :
    TaskInv w cfg i t fs1 ph := by
  cases ph <;> first
    | exact h
    | (simp only [TaskInv, Settled] at h ⊢
       rw [hfs]
       exact h)

/-- A step of the goroutine of task `i` keeps what its phase says about its attempts and its
file, and writes no file but its own. -/
theorem taskStep_file (w : World) (cfg : config) (i : Nat) (t : Task) (ph : Phase)
    (s s1 : State) (h : taskStep w cfg i t ph s = some s1)
    (hnf : ∀ a, fetched w cfg i a t ≠ HttpOutcome.fatal)
    (hinv : TaskInv w cfg i t s.fs ph) :
    ∃ ph1, s1.phases = s.phases.set i ph1 ∧ TaskInv w cfg i t s1.fs ph1 ∧
      (∀ q, q ≠ t.filepath → s1.fs q = s.fs q) ∧ s1.fatal = s.fatal := by
  cases ph with
  | waiting =>
    simp only [taskStep] at h
    split at h
    · cases h
      refine ⟨loopHead 1, rfl, ?_, fun _ _ => rfl, rfl⟩
      simp only [loopHead, maxRetries, TaskInv]
      exact ⟨le_refl 1, by decide, fun b hb1 hb => by omega⟩
    · cases h
  | fetching a =>
    obtain ⟨ha1, ha3, hprev⟩ := hinv
    simp only [taskStep] at h
    split at h
    · rename_i hf
      exact absurd hf (hnf a)
    · rename_i e he
      cases h
      refine ⟨Phase.failed a, rfl, ⟨ha1, ha3, ?_⟩, fun _ _ => rfl, rfl⟩
      intro b hb1 hba
      rcases Nat.lt_or_eq_of_le hba with hlt | heq
      · exact hprev b hb1 hlt
      · subst heq
        simp only [attemptFails, fetched, he]
    · rename_i data hd
      cases h
      exact ⟨Phase.creating a data, rfl, ⟨ha1, ha3, hprev, hd⟩, fun _ _ => rfl, rfl⟩
  | creating a data =>
    obtain ⟨ha1, ha3, hprev, hd⟩ := hinv
    simp only [taskStep] at h
    split at h
    · rename_i hc
      cases h
      exact ⟨Phase.copying a data, rfl, ⟨ha1, ha3, hprev, hd, hc⟩,
        fun q hq => FS.write_other _ _ _ _ hq, rfl⟩
    · rename_i hc
      cases h
      refine ⟨Phase.failed a, rfl, ⟨ha1, ha3, ?_⟩, fun _ _ => rfl, rfl⟩
      intro b hb1 hba
      rcases Nat.lt_or_eq_of_le hba with hlt | heq
      · exact hprev b hb1 hlt
      · subst heq
        simp only [attemptFails, hd]
        simp [hc]
  | copying a data =>
    obtain ⟨ha1, ha3, hprev, hd, hc⟩ := hinv
    simp only [taskStep] at h
    split at h
    · rename_i hs
      cases h
      refine ⟨Phase.finishing, rfl, ?_, fun q hq => FS.write_other _ _ _ _ hq, rfl⟩
      exact Or.inl ⟨a, data, ha1, ha3, hprev, ⟨hd, hc, hs⟩, FS.write_same _ _ _⟩
    · rename_i n hs
      cases h
      refine ⟨Phase.failed a, rfl, ⟨ha1, ha3, ?_⟩, fun q hq => FS.write_other _ _ _ _ hq, rfl⟩
      intro b hb1 hba
      rcases Nat.lt_or_eq_of_le hba with hlt | heq
      · exact hprev b hb1 hlt
      · subst heq
        simp only [attemptFails, hd]
        simp [hs]
  | failed a =>
    obtain ⟨ha1, ha3, hprev⟩ := hinv
    simp only [taskStep] at h
    cases h
    refine ⟨loopHead (a + 1), rfl, ?_, fun _ _ => rfl, rfl⟩
    unfold loopHead maxRetries
    split
    · rename_i hle
      exact ⟨by omega, hle, fun b hb1 hb => hprev b hb1 (by omega)⟩
    · rename_i hgt
      exact Or.inr (fun b hb1 hb3 => hprev b hb1 (by omega))
  | finishing =>
    simp only [taskStep] at h
    split at h
    · cases h
      exact ⟨Phase.releasing, rfl, hinv, fun _ _ => rfl, rfl⟩
    · cases h
  | releasing =>
    simp only [taskStep] at h
    split at h
    · cases h
      exact ⟨Phase.exited, rfl, hinv, fun _ _ => rfl, rfl⟩
    · cases h
  | exited => simp [taskStep] at h

theorem filepath_ne_of_nodup (tasks : List Task) (hnd : (tasks.map Task.filepath).Nodup)
    (i k : Nat) (t tk : Task) (hi : tasks[i]? = some t) (hk : tasks[k]? = some tk)
    (hne : i ≠ k) : t.filepath ≠ tk.filepath := by
  intro heq
  obtain ⟨hil, hit⟩ := List.getElem?_eq_some_iff.mp hi
  obtain ⟨hkl, hkt⟩ := List.getElem?_eq_some_iff.mp hk
  have hi2 : i < (tasks.map Task.filepath).length := by simpa using hil
  have hk2 : k < (tasks.map Task.filepath).length := by simpa using hkl
  have : (tasks.map Task.filepath)[i] = (tasks.map Task.filepath)[k] := by
    simp only [List.getElem_map, hit, hkt, heq]
  exact hne ((List.Nodup.getElem_inj_iff hnd).mp this)

theorem step_files (w : World) (cfg : config) (title : String) (tasks : List Task)
    (hnd : (tasks.map Task.filepath).Nodup)
    (hnf : ∀ i a t, fetched w cfg i a t ≠ HttpOutcome.fatal)
    (s : State) (a : Action) (s1 : State) (hF : Files w cfg tasks s)
    (h : step w cfg title tasks s a = some s1) : Files w cfg tasks s1 := by
  obtain ⟨hfat, hinv⟩ := hF
  cases a with
  | spawn =>
    obtain ⟨-, hlen, rfl⟩ := step_spawn w cfg title tasks s s1 h
    refine ⟨hfat, ?_⟩
    intro i ph t hp ht
    simp only [List.getElem?_append] at hp
    split at hp
    · exact hinv i ph t hp ht
    · have hmem : ph ∈ [Phase.waiting] := List.getElem?_mem hp
      simp only [List.mem_singleton] at hmem
      subst hmem
      trivial
  | join =>
    obtain ⟨-, -, -, -, rfl⟩ := step_join w cfg title tasks s s1 h
    exact ⟨hfat, hinv⟩
  | task k =>
    obtain ⟨-, phk, tk, hpk, htk, hts⟩ := step_task w cfg title tasks s s1 k h
    obtain ⟨ph1, hph, hnew, hother, hfat1⟩ :=
      taskStep_file w cfg k tk phk s s1 hts (fun a => hnf k a tk) (hinv k phk tk hpk htk)
    refine ⟨by rw [hfat1]; exact hfat, ?_⟩
    intro i ph t hp ht
    rw [hph] at hp
    by_cases hik : k = i
    · subst hik
      have hlt : k < s.phases.length := (List.getElem?_eq_some_iff.mp hpk).1
      rw [List.getElem?_set_self hlt] at hp
      rw [htk] at ht
      cases hp
      cases ht
      exact hnew
    · rw [List.getElem?_set_ne hik] at hp
      have hne := filepath_ne_of_nodup tasks hnd i k t tk ht htk (fun e => hik e.symm)
      exact TaskInv_congr w cfg i t s.fs s1.fs ph (hother _ hne) (hinv i ph t hp ht)

theorem exec_files (w : World) (cfg : config) (title : String) (tasks : List Task) (fs : FS)
    (hnd : (tasks.map Task.filepath).Nodup)
    (hnf : ∀ i a t, fetched w cfg i a t ≠ HttpOutcome.fatal)
    (acts : List Action) (s : State)
    (h : exec w cfg title tasks (initState cfg fs) acts = some s) : Files w cfg tasks s :=
  exec_invariant w cfg title tasks (Files w cfg tasks)
    (fun s a s1 hF hs => step_files w cfg title tasks hnd hnf s a s1 hF hs) acts _ s
    ⟨rfl, by intro i ph t hp; simp [initState] at hp⟩ h


theorem attemptSucceeds_not_fails (w : World) (cfg : config) (i a : Nat) (t : Task)
    (data : Response) (h : attemptSucceeds w cfg i a t data) :
    attemptFails w cfg i a t = false := by
  obtain ⟨hf, hc, hs⟩ := h
  simp [attemptFails, hf, hc, hs]

theorem settled_file (w : World) (cfg : config) (i : Nat) (t : Task) (fs : FS)
    (h : Settled w cfg i t fs) (j : Nat) (data : Response) (hj1 : 1 ≤ j) (hj3 : j ≤ 3)
    (hprev : ∀ b, 1 ≤ b → b < j → attemptFails w cfg i b t = true)
    (hok : attemptSucceeds w cfg i j t data) : fs t.filepath = some data.Body := by
  have hnot := attemptSucceeds_not_fails w cfg i j t data hok
  rcases h with ⟨k, dk, hk1, hk3, hkprev, hkok, hfs⟩ | hall
  · have hnotk := attemptSucceeds_not_fails w cfg i k t dk hkok
    have hjk : j = k := by
      rcases Nat.lt_trichotomy j k with hlt | heq | hgt
      · have := hkprev j hj1 hlt
        rw [hnot] at this
        cases this
      · exact heq
      · have := hprev k hk1 hgt
        rw [hnotk] at this
        cases this
    subst hjk
    have := hok.1.symm.trans hkok.1
    cases this
    exact hfs
  · have := hall j hj1 hj3
    rw [hnot] at this
    cases this

/-! ## Progress -/

theorem step_not_fatal (w : World) (cfg : config) (title : String) (tasks : List Task)
    (hnf : ∀ i a t, fetched w cfg i a t ≠ HttpOutcome.fatal)
    (s : State) (a : Action) (s1 : State) (hfat : s.fatal = false)
    (h : step w cfg title tasks s a = some s1) : s1.fatal = false := by
  cases a with
  | spawn =>
    obtain ⟨-, -, rfl⟩ := step_spawn w cfg title tasks s s1 h
    exact hfat
  | join =>
    obtain ⟨-, -, -, -, rfl⟩ := step_join w cfg title tasks s s1 h
    exact hfat
  | task i =>
    obtain ⟨-, ph, t, -, -, hts⟩ := step_task w cfg title tasks s s1 i h
    rcases taskStep_sync w cfg i t ph s s1 hts with ⟨-, a, ha⟩ | ⟨ph1, -, -, -, hf, -⟩
    · exact absurd ha (hnf i a t)
    · rw [hf]; exact hfat

/-- A goroutine that holds a token can always take its next step. -/
theorem holder_moves (w : World) (cfg : config) (title : String) (tasks : List Task)
    (s : State) (hb : Balanced cfg title tasks s) (hfat : s.fatal = false)
    (i : Nat) (ph : Phase) (hp : s.phases[i]? = some ph) (hh : ph.holding = true) :
    ∃ s1, step w cfg title tasks s (Action.task i) = some s1 := by
  have hlt : i < s.phases.length := (List.getElem?_eq_some_iff.mp hp).1
  have hlt2 : i < tasks.length := Nat.lt_of_lt_of_le hlt hb.started
  have ht : tasks[i]? = some tasks[i] := List.getElem?_eq_getElem hlt2
  simp only [step, hfat, if_true, hp, ht]
  cases ph with
  | waiting => cases hh
  | fetching a =>
    simp only [taskStep]
    split <;> exact ⟨_, rfl⟩
  | creating a data =>
    simp only [taskStep]
    split <;> exact ⟨_, rfl⟩
  | copying a data =>
    simp only [taskStep]
    split <;> exact ⟨_, rfl⟩
  | failed a => exact ⟨_, rfl⟩
  | finishing =>
    have hpos : 0 < s.phases.countP (fun ph => !ph.done) :=
      countP_pos_of_index _ s.phases i Phase.finishing hp rfl
    have hwg : 0 < s.wg := by rw [hb.counter]; exact hpos
    simp only [taskStep, hwg, if_true]
    exact ⟨_, rfl⟩
  | releasing =>
    have hpos : 0 < s.phases.countP Phase.holding :=
      countP_pos_of_index _ s.phases i Phase.releasing hp rfl
    have hsem : s.sem < s.cap := by
      have h1 := hb.tokens
      have h2 := hb.cap_eq
      simp only [holders] at h1
      omega
    simp only [taskStep, hsem, if_true]
    exact ⟨_, rfl⟩
  | exited => cases hh

/-- While a run is not over, some step is possible. -/
theorem progress (w : World) (cfg : config) (title : String) (tasks : List Task)
    (hK : 1 ≤ cfg.MaxThreads) (s : State) (hb : Balanced cfg title tasks s)
    (hfat : s.fatal = false) (hnot : ¬ s.final) :
    ∃ a s1, step w cfg title tasks s a = some s1 := by
  by_cases hlen : s.phases.length < tasks.length
  · refine ⟨Action.spawn, ?_⟩
    simp only [step, hfat, hlen, and_self, if_true]
    exact ⟨_, rfl⟩
  · have hlen2 : s.phases.length = tasks.length := Nat.le_antisymm hb.started (Nat.not_lt.mp hlen)
    by_cases hall : ∀ ph ∈ s.phases, ph = Phase.exited
    · by_cases hret : s.ret = none
      · have hwg : s.wg = 0 := by
          rw [hb.counter, List.countP_eq_zero]
          intro ph hph
          rw [hall ph hph]
          simp [Phase.done]
        refine ⟨Action.join, ?_⟩
        simp only [step, hfat, hlen2, hwg, hret, and_self, if_true]
        exact ⟨_, rfl⟩
      · exact absurd ⟨hret, hall⟩ hnot
    · push_neg at hall
      obtain ⟨ph, hmem, hne⟩ := hall
      obtain ⟨i, hi⟩ := List.mem_iff_getElem?.mp hmem
      by_cases hh : ph.holding = true
      · obtain ⟨s1, hs1⟩ := holder_moves w cfg title tasks s hb hfat i ph hi hh
        exact ⟨_, s1, hs1⟩
      · have hw : ph = Phase.waiting := by
          cases ph <;> first | rfl | exact absurd rfl hne | exact absurd rfl hh
        subst hw
        by_cases hsem : 0 < s.sem
        · have hlt : i < s.phases.length := (List.getElem?_eq_some_iff.mp hi).1
          have hlt2 : i < tasks.length := Nat.lt_of_lt_of_le hlt hb.started
          have ht : tasks[i]? = some tasks[i] := List.getElem?_eq_getElem hlt2
          refine ⟨Action.task i, ?_⟩
          simp only [step, hfat, if_true, hi, ht, taskStep, hsem]
          exact ⟨_, rfl⟩
        · have hpos : 0 < s.phases.countP Phase.holding := by
            have h1 := hb.tokens
            simp only [holders] at h1
            omega
          obtain ⟨j, phj, hj, hhj⟩ := countP_pos_index Phase.holding s.phases hpos
          obtain ⟨s1, hs1⟩ := holder_moves w cfg title tasks s hb hfat j phj hj hhj
          exact ⟨_, s1, hs1⟩

/-- Every run can be continued to its end. -/
theorem reaches_final (w : World) (cfg : config) (title : String) (tasks : List Task)
    (hK : 1 ≤ cfg.MaxThreads) (hnf : ∀ i a t, fetched w cfg i a t ≠ HttpOutcome.fatal) :
    ∀ (n : Nat) (s : State), Balanced cfg title tasks s → s.fatal = false →
      stepsLeft tasks s ≤ n →
      ∃ rest s1, exec w cfg title tasks s rest = some s1 ∧ s1.final := by
  intro n
  induction n with
  | zero =>
    intro s _ hfat hle
    simp only [stepsLeft, hfat, if_true] at hle
    omega
  | succ n ih =>
    intro s hb hfat hle
    by_cases hfin : s.final
    · exact ⟨[], s, rfl, hfin⟩
    · obtain ⟨a, s1, hs1⟩ := progress w cfg title tasks hK s hb hfat hfin
      have hb1 := step_balanced w cfg title tasks s a s1 hb hs1
      have hf1 := step_not_fatal w cfg title tasks hnf s a s1 hfat hs1
      have hlt := step_stepsLeft w cfg title tasks s a s1 hs1
      obtain ⟨rest, s2, hrest, hfin2⟩ := ih s1 hb1 hf1 (by omega)
      refine ⟨a :: rest, s2, ?_, hfin2⟩
      simp only [exec, hs1]
      exact hrest


/-! ## The dispatch -/

/-- C1: in every state that a run of the dispatch of `downloadTelegraphImages` can reach, for
every list of tasks and every budget `cfg.MaxThreads` (in particular every budget of at
least one), the number of goroutines that have executed `<-sem` and not yet
`sem <- struct{}{}` is at most `cfg.MaxThreads`; the goroutines inside the retry loop are
among them; and the tokens in `sem` plus the tokens held make up `cfg.MaxThreads`. -/
theorem permits_bounded (w : World) (cfg : config) (title : String) (tasks : List Task)
    (fs : FS) (acts : List Action) (s : State)
    (h : exec w cfg title tasks (initState cfg fs) acts = some s) :
    holders s ≤ cfg.MaxThreads ∧ inFlight s ≤ holders s ∧
      s.sem + holders s = cfg.MaxThreads := by
  have hb := exec_balanced w cfg title tasks fs acts s h
  refine ⟨?_, inLoop_le_holding s.phases, hb.tokens⟩
  have := hb.tokens
  omega

/-- C1, with two tasks and one token: the first goroutine holds the token after a failed
attempt, the second waits. -/
theorem permits_bounded_witness :
    holders ⟨emptyFS, 0, 1, 2, [Phase.failed 1, Phase.waiting], none, false⟩ ≤ 1 :=
  (permits_bounded mixedWorld oneThread "T" twoTasks emptyFS
    [Action.spawn, Action.spawn, Action.task 0, Action.task 0]
    ⟨emptyFS, 0, 1, 2, [Phase.failed 1, Phase.waiting], none, false⟩ rfl).1

/-- C6 as stated fails: with one task and one token, after the goroutine has executed
`wg.Done()` the counter is zero and `wg.Wait()` returns, so `downloadTelegraphImages` returns
`(title, nil)`, while the goroutine still holds its token and `sem` is empty. -/
theorem join_before_release :
    exec calmWorld oneThread "T" oneTask (initState oneThread emptyFS)
        [Action.spawn, Action.task 0, Action.task 0, Action.task 0, Action.task 0,
          Action.task 0, Action.join]
      = some ⟨(emptyFS.write "pics/T/0.jpg" []).write "pics/T/0.jpg" [7, 8, 9], 0, 1, 0,
          [Phase.releasing], some ("T", none), false⟩ ∧
    holders ⟨(emptyFS.write "pics/T/0.jpg" []).write "pics/T/0.jpg" [7, 8, 9], 0, 1, 0,
          [Phase.releasing], some ("T", none), false⟩ = 1 :=
  ⟨rfl, rfl⟩

/-- C6, amended: in every state that a run of the dispatch can reach, if
`downloadTelegraphImages` has returned then every task has been started and the counter of
`wg` is zero; whenever every task has been started and the counter is zero, every goroutine
has left its retry loop and executed `wg.Done()`; and a goroutine that has still to put its
token back finds room in `sem`. -/
theorem join_after_done (w : World) (cfg : config) (title : String) (tasks : List Task)
    (fs : FS) (acts : List Action) (s : State)
    (h : exec w cfg title tasks (initState cfg fs) acts = some s) :
    (s.ret ≠ none → s.phases.length = tasks.length ∧ s.wg = 0) ∧
    (s.phases.length = tasks.length → s.wg = 0 →
      ∀ ph ∈ s.phases, ph.done = true ∧ ph.inLoop = false) ∧
    (Phase.releasing ∈ s.phases → s.sem < s.cap) := by
  have hb := exec_balanced w cfg title tasks fs acts s h
  refine ⟨fun hne => (hb.joined hne).2, ?_, ?_⟩
  · intro _ hwg ph hph
    have hz : s.phases.countP (fun ph => !ph.done) = 0 := by rw [← hb.counter]; exact hwg
    rw [List.countP_eq_zero] at hz
    have hd : ph.done = true := by simpa using hz ph hph
    refine ⟨hd, ?_⟩
    cases ph <;> first | rfl | cases hd
  · intro hmem
    obtain ⟨i, hi⟩ := List.mem_iff_getElem?.mp hmem
    have hpos : 0 < s.phases.countP Phase.holding :=
      countP_pos_of_index _ s.phases i Phase.releasing hi rfl
    have h1 := hb.tokens
    have h2 := hb.cap_eq
    simp only [holders] at h1
    omega

/-- C6 amended, at the run in which `downloadTelegraphImages` returns while the only
goroutine has still to put its token back. -/
theorem join_after_done_witness :
    Phase.releasing.done = true ∧ Phase.releasing.inLoop = false :=
  (join_after_done calmWorld oneThread "T" oneTask emptyFS
    [Action.spawn, Action.task 0, Action.task 0, Action.task 0, Action.task 0,
      Action.task 0, Action.join]
    ⟨(emptyFS.write "pics/T/0.jpg" []).write "pics/T/0.jpg" [7, 8, 9], 0, 1, 0,
      [Phase.releasing], some ("T", none), false⟩ rfl).2.1 rfl rfl
    Phase.releasing (List.mem_singleton.mpr rfl)

/-- C5: let the page be fetched (so that `HttpGet` builds a client from the proxy string),
the budget be at least one and the destination paths of the tasks pairwise distinct.  Then,
whatever the outcomes of the attempts and however the goroutines interleave: the process is
never exited; a run has at most `20 * n + 2` steps for `n` tasks; while the run is not over
some step is possible, and it can be continued to a state where `downloadTelegraphImages`
has returned and every goroutine too; and once `downloadTelegraphImages` has returned, it
has returned `(title, nil)`, every task has been started and has executed `wg.Done()`, and
for every task one of whose three attempts succeeded, the destination file holds exactly the
body received by the first such attempt. -/
theorem dispatch_no_abort (w : World) (cfg : config) (title : String) (tasks : List Task)
    (fs : FS) (c : Client) (acts : List Action) (s : State)
    (hK : 1 ≤ cfg.MaxThreads)
    (hclient : proxyClient w cfg.ProxyString = some c)
    (hpaths : (tasks.map Task.filepath).Nodup)
    (h : exec w cfg title tasks (initState cfg fs) acts = some s) :
    s.fatal = false ∧
    acts.length ≤ 20 * tasks.length + 2 ∧
    (¬ s.final → ∃ a s1, step w cfg title tasks s a = some s1) ∧
    (∃ rest s1, exec w cfg title tasks s rest = some s1 ∧ s1.final) ∧
    (s.ret ≠ none →
      s.ret = some (title, none) ∧ s.phases.length = tasks.length ∧
      (∀ ph ∈ s.phases, ph.done = true) ∧
      ∀ (i : Nat) (t : Task) (j : Nat) (data : Response), tasks[i]? = some t →
        1 ≤ j → j ≤ 3 → (∀ b, 1 ≤ b → b < j → attemptFails w cfg i b t = true) →
        attemptSucceeds w cfg i j t data → s.fs t.filepath = some data.Body) := by
  have hnf : ∀ i a t, fetched w cfg i a t ≠ HttpOutcome.fatal :=
    fun i a t => fetched_of_client w cfg c hclient i a t
  have hb := exec_balanced w cfg title tasks fs acts s h
  have hF := exec_files w cfg title tasks fs hpaths hnf acts s h
  have hlen := exec_length w cfg title tasks acts _ s h
  refine ⟨hF.1, ?_, progress w cfg title tasks hK s hb hF.1,
    reaches_final w cfg title tasks hK hnf _ s hb hF.1 (le_refl _), ?_⟩
  · have h0 : stepsLeft tasks (initState cfg fs) = 20 * tasks.length + 2 := by
      simp [stepsLeft, initState]
    omega
  · intro hne
    obtain ⟨hret, hlen2, hwg⟩ := hb.joined hne
    have hz : s.phases.countP (fun ph => !ph.done) = 0 := by rw [← hb.counter]; exact hwg
    rw [List.countP_eq_zero] at hz
    have hdone : ∀ ph ∈ s.phases, ph.done = true := fun ph hph => by simpa using hz ph hph
    refine ⟨hret, hlen2, hdone, ?_⟩
    intro i t j data ht hj1 hj3 hprev hok
    have hlt : i < s.phases.length := by
      rw [hlen2]; exact (List.getElem?_eq_some_iff.mp ht).1
    have hp : s.phases[i]? = some s.phases[i] := List.getElem?_eq_getElem hlt
    have hinv := hF.2 i _ t hp ht
    have hd := hdone _ (List.getElem?_mem hp)
    have hset : Settled w cfg i t s.fs := by
      cases hph : s.phases[i] <;> rw [hph] at hinv hd <;> first | exact hinv | cases hd
    exact settled_file w cfg i t s.fs hset j data hj1 hj3 hprev hok

/-- C5, with one token and two tasks, the first never answered, the second answered at once:
after the second task has run to its end, then the first, `downloadTelegraphImages` has
returned and the file of the second task holds the body it received. -/
theorem dispatch_no_abort_witness :
    ((emptyFS.write "pics/T/2.jpg" []).write "pics/T/2.jpg" [7, 8, 9]) "pics/T/2.jpg"
      = some [7, 8, 9] :=
  (dispatch_no_abort mixedWorld oneThread "T" twoTasks emptyFS Client.direct
    [Action.spawn, Action.spawn,
      Action.task 1, Action.task 1, Action.task 1, Action.task 1, Action.task 1, Action.task 1,
      Action.task 0, Action.task 0, Action.task 0, Action.task 0, Action.task 0, Action.task 0,
      Action.task 0, Action.task 0, Action.task 0, Action.join]
    ⟨(emptyFS.write "pics/T/2.jpg" []).write "pics/T/2.jpg" [7, 8, 9], 1, 1, 0,
      [Phase.exited, Phase.exited], some ("T", none), false⟩
    (by decide) (by decide) (by decide) rfl).2.2.2.2 (by simp)
    |>.2.2.2 1 ⟨"pics/T/2.jpg", "https://telegra.ph/file/b.jpg"⟩ 1 ⟨200, [7, 8, 9]⟩ rfl
      (by decide) (by decide) (by intro b h1 h2; omega) ⟨by decide, by decide, by decide⟩

end TGraphSaver
